import Mathlib

set_option maxRecDepth 40000

/-!
# Verification of the claude-rtl-fixer patch transaction engine

Shallow embedding of the repository's core modules:

* `integrity` (src/unnamed/part_003): `computeAsarHeaderHash`,
  `readEmbeddedHash`, `patchExeHash`;
* `backup` (src/unnamed/part_000): `createBackup`, `restoreBackup`,
  `isPatchedOnDisk`, `hasBackups`;
* the patch orchestrator (src/src/patcher.js): `preflight` + `patch`.

File contents are modelled as `List Nat` (byte values).  Hash strings are
modelled as the list of their ASCII codes.  The external collaborators
(the `@electron/asar` transcoder, `JSON.parse`/`JSON.stringify`, the
process/lock probes and the payload source) are abstract parameters of the
orchestrator, exactly the role §6 of the specification assigns them.
-/

namespace RtlFixer

/-! ## Generic byte-list machinery

`Buffer.indexOf`, `Buffer.copy`-style in-place overwrite, and
`String.replace` (first occurrence) are the primitive operations the
source uses on binary buffers and file contents. -/

/-- `leadsList pat l`: `pat` is an initial segment of `l`. -/
def leadsList : List Nat → List Nat → Bool
  | [], _ => true
  | _ :: _, [] => false
  | p :: ps, x :: xs => p == x && leadsList ps xs

/-- `pat` occurs in `buf` starting at byte offset `i`. -/
def occursAt (pat buf : List Nat) (i : Nat) : Prop :=
  leadsList pat (buf.drop i) = true

instance (pat buf : List Nat) (i : Nat) : Decidable (occursAt pat buf i) :=
  inferInstanceAs (Decidable (_ = true))

/-- Search helper: scan the suffix `l` of the buffer, `i` being the absolute
offset of `l`'s head. -/
def bufIndexOfAux (l pat : List Nat) (i : Nat) : Option Nat :=
  match l with
  | [] => if pat.isEmpty then some i else none
  | _ :: rest => if leadsList pat l then some i else bufIndexOfAux rest pat (i + 1)

/-- `Buffer.indexOf(pat, start)`: absolute offset of the first occurrence of
`pat` in `buf` at offset ≥ `start`, or `none`. -/
def bufIndexOf (buf pat : List Nat) (start : Nat) : Option Nat :=
  bufIndexOfAux (buf.drop start) pat start

/-- `Buffer.includes` / `String.includes`. -/
def containsSub (buf pat : List Nat) : Bool :=
  (bufIndexOf buf pat 0).isSome

/-- `src.copy(buf, idx)`: overwrite `buf` in place starting at `idx` with
`repl`, clamped at the end of the buffer (Node `Buffer.copy` semantics). -/
def bufWrite (buf : List Nat) (idx : Nat) (repl : List Nat) : List Nat :=
  buf.take idx ++ repl.take (buf.length - idx) ++ buf.drop (idx + repl.length)

/-- JS `String.replace(pat, rep)` with a string pattern: replace the first
occurrence only. -/
def replaceFirst (l pat rep : List Nat) : List Nat :=
  match bufIndexOf l pat 0 with
  | none => l
  | some i => l.take i ++ rep ++ l.drop (i + pat.length)

/-! ## SHA-256 (`crypto.createHash("sha256")`), over `Nat` with explicit
wrap-around at `2 ^ 32`. -/

def w32 : Nat := 4294967296

def rotr (x n : Nat) : Nat :=
  ((x >>> n) ||| (x <<< (32 - n))) % w32

def bigSigma0 (x : Nat) : Nat := (rotr x 2) ^^^ (rotr x 13) ^^^ (rotr x 22)
def bigSigma1 (x : Nat) : Nat := (rotr x 6) ^^^ (rotr x 11) ^^^ (rotr x 25)
def smallSigma0 (x : Nat) : Nat := (rotr x 7) ^^^ (rotr x 18) ^^^ (x >>> 3)
def smallSigma1 (x : Nat) : Nat := (rotr x 17) ^^^ (rotr x 19) ^^^ (x >>> 10)

/-- The 64 round constants of SHA-256, written in decimal. -/
def sha256K : List Nat :=
  [1116352408, 1899447441, 3049323471, 3921009573, 961987163, 1508970993,
   2453635748, 2870763221, 3624381080, 310598401, 607225278, 1426881987,
   1925078388, 2162078206, 2614888103, 3248222580, 3835390401, 4022224774,
   264347078, 604807628, 770255983, 1249150122, 1555081692, 1996064986,
   2554220882, 2821834349, 2952996808, 3210313671, 3336571891, 3584528711,
   113926993, 338241895, 666307205, 773529912, 1294757372, 1396182291,
   1695183700, 1986661051, 2177026350, 2456956037, 2730485921, 2820302411,
   3259730800, 3345764771, 3516065817, 3600352804, 4094571909, 275423344,
   430227734, 506948616, 659060556, 883997877, 958139571, 1322822218,
   1537002063, 1747873779, 1955562222, 2024104815, 2227730452, 2361852424,
   2428436474, 2756734187, 3204031479, 3329325298]

/-- The eight initial hash words of SHA-256, written in decimal. -/
def sha256Init : List Nat :=
  [1779033703, 3144134277, 1013904242, 2773480762,
   1359893119, 2600822924, 528734635, 1541459225]

/-- Big-endian bytes of `x`, `n` bytes wide. -/
def beBytes (n x : Nat) : List Nat :=
  match n with
  | 0 => []
  | m + 1 => beBytes m (x / 256) ++ [x % 256]

/-- SHA-256 padding: append `0x80`, zeros and the 64-bit big-endian bit
length, bringing the length to a multiple of 64. -/
def sha256Pad (msg : List Nat) : List Nat :=
  msg ++ [128] ++ List.replicate ((64 - (msg.length + 9) % 64) % 64) 0
      ++ beBytes 8 (8 * msg.length)

/-- Split a (padded) message into 64-byte blocks (structural recursion on a
fuel bound so that the definition evaluates inside the kernel). -/
def chunks64Fuel : Nat → List Nat → List (List Nat)
  | 0, _ => []
  | _, [] => []
  | fuel + 1, x :: rest => (x :: rest).take 64 :: chunks64Fuel fuel ((x :: rest).drop 64)

/-- Split a (padded) message into 64-byte blocks. -/
def chunks64 (l : List Nat) : List (List Nat) :=
  chunks64Fuel l.length l

/-- Pack a block of bytes into big-endian 32-bit words. -/
def toWords (l : List Nat) : List Nat :=
  match l with
  | b0 :: b1 :: b2 :: b3 :: rest =>
      (b0 * 16777216 + b1 * 65536 + b2 * 256 + b3) :: toWords rest
  | _ => []

/-- Extend the 16 message words to 64 (message schedule). -/
def sha256Schedule (ws : List Nat) : List Nat :=
  (List.range 48).foldl
    (fun acc _ =>
      let n := acc.length
      acc ++ [(smallSigma1 (acc.getD (n - 2) 0) + acc.getD (n - 7) 0 +
               smallSigma0 (acc.getD (n - 15) 0) + acc.getD (n - 16) 0) % w32])
    ws

/-- One round of the compression function. -/
def sha256Round (st : List Nat) (wk : Nat × Nat) : List Nat :=
  match st with
  | [a, b, c, d, e, f, g, h] =>
      let t1 := (h + bigSigma1 e + ((e &&& f) ^^^ ((w32 - 1 - e) &&& g)) + wk.2 + wk.1) % w32
      let t2 := (bigSigma0 a + ((a &&& b) ^^^ (a &&& c) ^^^ (b &&& c))) % w32
      [(t1 + t2) % w32, a, b, c, (d + t1) % w32, e, f, g]
  | other => other

/-- Process one 64-byte block. -/
def sha256Block (h : List Nat) (block : List Nat) : List Nat :=
  let ws := sha256Schedule (toWords block)
  let st := (ws.zip sha256K).foldl sha256Round h
  (h.zip st).map (fun p => (p.1 + p.2) % w32)

/-- SHA-256 digest of a byte list, as 32 bytes. -/
def sha256 (msg : List Nat) : List Nat :=
  ((chunks64 (sha256Pad msg)).foldl sha256Block sha256Init).flatMap (beBytes 4)

/-- ASCII code of the lowercase hex digit for `d < 16`. -/
def hexDigit (d : Nat) : Nat :=
  if d < 10 then 48 + d else 87 + d

/-- `digest("hex")`: the digest as the ASCII codes of its 64 lowercase hex
characters. -/
def sha256hex (msg : List Nat) : List Nat :=
  (sha256 msg).flatMap (fun b => [hexDigit (b / 16), hexDigit (b % 16)])

/-! ## Integrity codec (`src/unnamed/part_003`)

The three functions operate on file contents passed in as byte lists; the
`fs` reads of the source become list operations.  `fs.readSync(fd, buf, 0,
len, pos)` copies the bytes available at `pos` into a zero-filled buffer of
size `len`, silently zero-padding past end of file — it never throws for a
short file. -/

/-- `fs.readSync` into a `Buffer.alloc len` (zero-filled) at file position
`pos`: bytes past the end of the file stay `0`. -/
def readSyncInto (file : List Nat) (pos len : Nat) : List Nat :=
  (List.range len).map (fun i => file.getD (pos + i) 0)

/-- `buf.readUInt32LE off`. -/
def readUInt32LE (buf : List Nat) (off : Nat) : Nat :=
  buf.getD off 0 + 256 * buf.getD (off + 1) 0 + 65536 * buf.getD (off + 2) 0 +
    16777216 * buf.getD (off + 3) 0

/-- `computeAsarHeaderHash`: read the 16-byte pickle prefix, take the header
string length from offset 12, read that many bytes from offset 16 and hash
them.  The source performs no length or format validation. -/
def computeAsarHeaderHash (file : List Nat) : List Nat :=
  let headerMeta := readSyncInto file 0 16
  let headerStringLength := readUInt32LE headerMeta 12
  let headerString := readSyncInto file 16 headerStringLength
  sha256hex headerString

/-- The ASCII codes of the marker text preceding the embedded hash in the
executable (the 24 characters of the alg/SHA256/value JSON fragment). -/
def HASH_PATTERN : List Nat :=
  [34, 97, 108, 103, 34, 58, 34, 83, 72, 65, 50, 53, 54, 34, 44, 34,
   118, 97, 108, 117, 101, 34, 58, 34]

/-- Node `buf.toString("ascii")`: decoding clears the highest bit of every
byte before interpreting it as a character. -/
def asciiDecode (l : List Nat) : List Nat :=
  l.map (· % 128)

/-- One character of the regex class `[0-9a-f]`. -/
def isHexDigit (c : Nat) : Bool :=
  (48 ≤ c && c ≤ 57) || (97 ≤ c && c ≤ 102)

/-- The regex test `/^[0-9a-f]{64}$/`. -/
def isHex64 (l : List Nat) : Bool :=
  l.length == 64 && l.all isHexDigit

/-- Result of `readEmbeddedHash`: the source returns `{found, hash, offset}`
on success and `{found: false, error}` with distinct messages for the
missing-marker and bad-hash cases. -/
inductive ReadHashResult where
  | found (hash : List Nat) (offset : Nat)
  | notFound
  | invalid (hash : List Nat)
  deriving DecidableEq

/-- `readEmbeddedHash`: find the marker pattern, decode the following 64
bytes as ASCII and validate them as lowercase hex. -/
def readEmbeddedHash (buf : List Nat) : ReadHashResult :=
  match bufIndexOf buf HASH_PATTERN 0 with
  | none => .notFound
  | some idx =>
    let hashStart := idx + HASH_PATTERN.length
    let hash := asciiDecode ((buf.drop hashStart).take 64)
    if isHex64 hash then .found hash hashStart else .invalid hash

/-- The embedded hash of an executable, when `readEmbeddedHash` succeeds. -/
def embeddedHashOf (buf : List Nat) : Option (List Nat) :=
  match readEmbeddedHash buf with
  | .found h _ => some h
  | _ => none

/-- Result of `patchExeHash`. -/
inductive PatchExeResult where
  | noChange
  | invalidFormat
  | notFound
  | ambiguous
  | patched (newBuf : List Nat)
  deriving DecidableEq

/-- `patchExeHash`: binary search-and-replace of the 64-character hex string.
The second search (the "appears only once" safety check) starts at
`idx + 64`, exactly as in the source. -/
def patchExeHash (buf oldHash newHash : List Nat) : PatchExeResult :=
  if oldHash = newHash then .noChange
  else if !(isHex64 oldHash && isHex64 newHash) then .invalidFormat
  else
    match bufIndexOf buf oldHash 0 with
    | none => .notFound
    | some idx =>
      match bufIndexOf buf oldHash (idx + 64) with
      | some _ => .ambiguous
      | none => .patched (bufWrite buf idx newHash)

/-! ## Backup manager and marker store (`src/unnamed/part_000`)

The live artifacts and their side-car files are modelled as one state
record; the `.bak` paths and the marker path hold `Option` contents
(`none` = file absent).  `fs.copyFileSync`/`fs.unlinkSync` are modelled as
always succeeding (the source's partial-copy cleanup and copy-back error
branches are I/O-failure paths with no analogue in a total state model);
the transcoder, in contrast, is fallible in the model because its failure
branches drive the orchestrator's rollback logic. -/

structure SysState where
  asar : List Nat
  exe : List Nat
  asarBak : Option (List Nat)
  exeBak : Option (List Nat)
  marker : Option (List Nat)
  deriving DecidableEq

inductive BackupOutcome where
  | created
  | skipped
  deriving DecidableEq

/-- `createBackup`: skip (and leave the `.bak` files alone) only when both
backups already exist; otherwise copy the live archive and executable over
the two backup paths. -/
def createBackup (s : SysState) : BackupOutcome × SysState :=
  if s.asarBak.isSome && s.exeBak.isSome then (.skipped, s)
  else (.created, { s with asarBak := some s.asar, exeBak := some s.exe })

inductive RestoreOutcome where
  | restored
  | missingBackup
  deriving DecidableEq

/-- `restoreBackup`: fail if either backup is absent; otherwise copy both
backups over the live paths, then delete the backups and the marker. -/
def restoreBackup (s : SysState) : RestoreOutcome × SysState :=
  match s.asarBak, s.exeBak with
  | some a, some e =>
      (.restored, { asar := a, exe := e, asarBak := none, exeBak := none, marker := none })
  | _, _ => (.missingBackup, s)

/-- `hasBackups`. -/
def hasBackups (s : SysState) : Bool :=
  s.asarBak.isSome && s.exeBak.isSome

/-- `isPatchedOnDisk`, parametrised by `JSON.parse` (a language-runtime
capability): an absent marker file means not patched; a present marker means
patched even when its body fails to decode (`info` is then `null`). -/
def isPatchedOnDisk {α : Type} (parseJson : List Nat → Option α)
    (marker : Option (List Nat)) : Bool × Option α :=
  match marker with
  | none => (false, none)
  | some body =>
    match parseJson body with
    | some info => (true, some info)
    | none => (true, none)

/-! ## Patch orchestrator (`src/src/patcher.js`)

External collaborators (spec §6) are the fields of `Env`: the process/lock
probes behind `isClaudeRunning`/`canWrite`, `JSON.parse` for the marker
body, the `@electron/asar` transcoder (`extractAll` returning `none` models
a throw, likewise `createPackage`), `JSON.stringify` plus clock and tool
version behind `writeMarker`, and the payload source `getRtlPayload`.  The
install locator has already resolved the installation: the `SysState`
fields are the contents of its paths. -/

/-- The extracted archive: the one file the injector touches, plus the rest
of the tree (opaque to the orchestrator). -/
structure FileTree where
  mainView : Option (List Nat)
  rest : List Nat
  deriving DecidableEq

structure Env where
  running : Bool
  asarWritable : Bool
  exeWritable : Bool
  parseMarker : List Nat → Option (List Nat)
  extractAll : List Nat → Option FileTree
  createPackage : FileTree → Option (List Nat)
  mkMarker : List Nat → List Nat → List Nat
  payload : List Nat

inductive PatchErr where
  | running
  | lockedAsar
  | lockedExe
  | alreadyPatched
  | embeddedHashNotFound
  | embeddedHashInvalid
  | integrityMismatch
  | extractFailed
  | structureChanged
  | alreadyPatchedCode
  | repackFailed
  | verifyFailed
  | exeHashInvalidFormat
  | exeHashNotFound
  | exeHashAmbiguous
  deriving DecidableEq

inductive PatchOutcome where
  | ok (oldHash newHash : List Nat)
  | fail (e : PatchErr)
  deriving DecidableEq

/-- `preflight(requireUnpatched)`: running check, write probes on both
artifacts, then the marker-store query. -/
def preflight (env : Env) (requireUnpatched : Bool) (s : SysState) : Option PatchErr :=
  if env.running then some .running
  else if !env.asarWritable then some .lockedAsar
  else if !env.exeWritable then some .lockedExe
  else if requireUnpatched && (isPatchedOnDisk env.parseMarker s.marker).1 then
    some .alreadyPatched
  else none

/-- The ASCII codes of the trailing source-map comment in `mainView.js`. -/
def SRCMAP_COMMENT : List Nat :=
  [47, 47, 35, 32, 115, 111, 117, 114, 99, 101, 77, 97, 112, 112, 105, 110,
   103, 85, 82, 76, 61, 109, 97, 105, 110, 86, 105, 101, 119, 46, 106, 115,
   46, 109, 97, 112]

/-- The ASCII codes of the payload's unique marker string. -/
def RTL_MARKER : List Nat :=
  [67, 108, 97, 117, 100, 101, 32, 82, 84, 76, 32, 70, 105, 120, 101, 114]

/-- `isPatched` from the payload module. -/
def isCodePatched (content : List Nat) : Bool :=
  containsSub content RTL_MARKER

/-- Step 6 of `patch`: insert the payload immediately before the source-map
comment when present, otherwise append it. -/
def injectPayload (payload content : List Nat) : List Nat :=
  if containsSub content SRCMAP_COMMENT then
    replaceFirst content SRCMAP_COMMENT (payload ++ [10] ++ SRCMAP_COMMENT)
  else content ++ payload

/-- The `patch` transaction (steps 1–10 of `patcher.js`), returning the
outcome value and the final file-system state. -/
def patch (env : Env) (s : SysState) : PatchOutcome × SysState :=
  match preflight env true s with
  | some e => (.fail e, s)
  | none =>
    match readEmbeddedHash s.exe with
    | .notFound => (.fail .embeddedHashNotFound, s)
    | .invalid _ => (.fail .embeddedHashInvalid, s)
    | .found oldHash _ =>
      if computeAsarHeaderHash s.asar = oldHash then
        let s1 := (createBackup s).2
        match env.extractAll s1.asar with
        | none => (.fail .extractFailed, s1)
        | some tree =>
          match tree.mainView with
          | none => (.fail .structureChanged, s1)
          | some content =>
            if isCodePatched content then (.fail .alreadyPatchedCode, s1)
            else
              match env.createPackage
                  { tree with mainView := some (injectPayload env.payload content) } with
              | none => (.fail .repackFailed, (restoreBackup s1).2)
              | some newAsar =>
                let s2 := { s1 with asar := newAsar }
                if newAsar.length < 1000 then (.fail .verifyFailed, (restoreBackup s2).2)
                else
                  let newHash := computeAsarHeaderHash s2.asar
                  match patchExeHash s2.exe oldHash newHash with
                  | .noChange =>
                      (.ok oldHash newHash,
                       { s2 with marker := some (env.mkMarker oldHash newHash) })
                  | .invalidFormat => (.fail .exeHashInvalidFormat, (restoreBackup s2).2)
                  | .notFound => (.fail .exeHashNotFound, (restoreBackup s2).2)
                  | .ambiguous => (.fail .exeHashAmbiguous, (restoreBackup s2).2)
                  | .patched newExe =>
                      (.ok oldHash newHash,
                       { s2 with exe := newExe,
                                 marker := some (env.mkMarker oldHash newHash) })
      else (.fail .integrityMismatch, s)

/-! ## Concrete installations

Closed instances used to evaluate the embedding on explicit inputs: a mock
archive whose declared header length is `0` (so its header hash is the
digest of the empty string), and executables embedding that digest behind
the marker pattern. -/

/-- The 64 hex characters of `sha256("")`, as ASCII codes. -/
def SHA256_EMPTY : List Nat :=
  [101, 51, 98, 48, 99, 52, 52, 50, 57, 56, 102, 99, 49, 99, 49, 52,
   57, 97, 102, 98, 102, 52, 99, 56, 57, 57, 54, 102, 98, 57, 50, 52,
   50, 55, 97, 101, 52, 49, 101, 52, 54, 52, 57, 98, 57, 51, 52, 99,
   97, 52, 57, 53, 57, 57, 49, 98, 55, 56, 53, 50, 98, 56, 53, 53]

/-- 1000-byte mock archive with declared header length `0`. -/
def asar0 : List Nat :=
  List.replicate 16 0 ++ List.replicate 984 1

/-- 1000-byte mock archive with declared header length `12` and header blob
`[7, …, 7]`. -/
def asar1 : List Nat :=
  List.replicate 12 0 ++ [12, 0, 0, 0] ++ List.replicate 984 7

/-- Header hash of `asar1`. -/
def H12 : List Nat :=
  sha256hex (List.replicate 12 7)

/-- Mock executable: the marker pattern, the embedded hash, padding. -/
def exe0 : List Nat :=
  HASH_PATTERN ++ SHA256_EMPTY ++ List.replicate 100 2

/-- The embedded hash with the high bit of its last byte set: `readEmbeddedHash`'s
ASCII decoding masks byte `181` back to `53` (the digit `5`). -/
def dirtyHash : List Nat :=
  SHA256_EMPTY.take 63 ++ [181]

/-- Mock executable whose marker is followed by the high-bit-dirtied hash,
while the clean hash bytes occur (once) later in the binary. -/
def exeD : List Nat :=
  HASH_PATTERN ++ dirtyHash ++ SHA256_EMPTY ++ List.replicate 100 2

/-- Healthy unpatched state for `asar0`/`exe0`. -/
def st0 : SysState :=
  { asar := asar0, exe := exe0, asarBak := none, exeBak := none, marker := none }

/-- State whose executable carries the dirtied embedded-hash bytes. -/
def stD : SysState :=
  { asar := asar0, exe := exeD, asarBak := none, exeBak := none, marker := none }

/-- Extraction result handed back by the mock transcoder. -/
def tree0 : FileTree :=
  { mainView := some (List.replicate 5 3), rest := [4] }

/-- Quiet environment whose transcoder repacks to exactly `asar0` (hence to
the same header hash). -/
def envSame : Env :=
  { running := false, asarWritable := true, exeWritable := true,
    parseMarker := fun _ => none,
    extractAll := fun _ => some tree0,
    createPackage := fun _ => some asar0,
    mkMarker := fun _ _ => [9],
    payload := [7] }

/-- Environment whose transcoder repacks to `asar1` (a different header
hash). -/
def envNew : Env :=
  { envSame with createPackage := fun _ => some asar1 }

/-- Environment whose transcoder fails to repack. -/
def envRepackFail : Env :=
  { envSame with createPackage := fun _ => none }

/-! ## Occurrence and search lemmas -/

theorem leadsList_iff_take (pat l : List Nat) :
    leadsList pat l = true ↔ l.take pat.length = pat := by
  induction pat generalizing l with
  | nil => simp [leadsList]
  | cons p ps ih =>
    cases l with
    | nil => simp [leadsList]
    | cons x xs =>
      simp only [leadsList, Bool.and_eq_true, beq_iff_eq, List.length_cons,
        List.take_succ_cons, List.cons.injEq, ih]
      tauto

theorem occursAt_iff_take {pat buf : List Nat} {i : Nat} :
    occursAt pat buf i ↔ (buf.drop i).take pat.length = pat := by
  rw [occursAt, leadsList_iff_take]

theorem occursAt_le_length {pat buf : List Nat} {i : Nat}
    (hpat : 0 < pat.length) (h : occursAt pat buf i) :
    i + pat.length ≤ buf.length := by
  rw [occursAt_iff_take] at h
  have hlen := congrArg List.length h
  simp only [List.length_take, List.length_drop] at hlen
  omega

theorem occursAt_getElem {pat buf : List Nat} {i : Nat} (h : occursAt pat buf i)
    {j : Nat} (hj : j < pat.length) : buf[i + j]? = pat[j]? := by
  rw [occursAt_iff_take] at h
  have := congrArg (fun l => l[j]?) h
  simpa [List.getElem?_take, List.getElem?_drop, hj] using this

theorem occursAt_of_take_eq {pat b1 b2 : List Nat} {i m : Nat}
    (htake : b1.take m = b2.take m) (hm : i + pat.length ≤ m)
    (h : occursAt pat b1 i) : occursAt pat b2 i := by
  rw [occursAt_iff_take] at h ⊢
  have h1 : (b1.take m).drop i = (b2.take m).drop i := by rw [htake]
  rw [List.drop_take, List.drop_take] at h1
  have e1 : (b1.drop i).take pat.length = ((b1.drop i).take (m - i)).take pat.length := by
    rw [List.take_take, Nat.min_eq_left (by omega)]
  have e2 : (b2.drop i).take pat.length = ((b2.drop i).take (m - i)).take pat.length := by
    rw [List.take_take, Nat.min_eq_left (by omega)]
  rw [e2, ← h1, ← e1, h]

theorem leadsList_nil_iff (pat : List Nat) : leadsList pat [] = true ↔ pat = [] := by
  cases pat <;> simp [leadsList]

theorem bufIndexOfAux_some {l pat : List Nat} {i k : Nat}
    (h : bufIndexOfAux l pat i = some k) :
    i ≤ k ∧ leadsList pat (l.drop (k - i)) = true ∧
      ∀ d, d < k - i → ¬leadsList pat (l.drop d) = true := by
  induction l generalizing i with
  | nil =>
    rw [bufIndexOfAux] at h
    split at h
    · next hp =>
      obtain rfl : i = k := by injection h
      refine ⟨le_refl _, ?_, by omega⟩
      simp only [Nat.sub_self, List.drop_nil]
      rw [leadsList_nil_iff]
      simpa [List.isEmpty_iff] using hp
    · exact absurd h (by simp)
  | cons x xs ih =>
    rw [bufIndexOfAux] at h
    split at h
    · next hp =>
      obtain rfl : i = k := by injection h
      exact ⟨le_refl _, by simpa using hp, by omega⟩
    · next hp =>
      obtain ⟨h1, h2, h3⟩ := ih h
      refine ⟨by omega, ?_, ?_⟩
      · have : k - i = (k - (i + 1)) + 1 := by omega
        rw [this]
        simpa using h2
      · intro d hd
        cases d with
        | zero => simpa using hp
        | succ d' =>
          have : d' < k - (i + 1) := by omega
          simpa using h3 d' this

theorem bufIndexOfAux_eq_some {l pat : List Nat} {d : Nat} (i : Nat)
    (hocc : leadsList pat (l.drop d) = true)
    (hmin : ∀ d' < d, ¬leadsList pat (l.drop d') = true) :
    bufIndexOfAux l pat i = some (i + d) := by
  induction l generalizing i d with
  | nil =>
    have hpat : pat = [] := by
      rw [← leadsList_nil_iff pat]
      simpa using hocc
    have hd : d = 0 := by
      by_contra hne
      exact hmin 0 (by omega) (by simp [hpat, leadsList])
    subst hpat hd
    simp [bufIndexOfAux, List.isEmpty]
  | cons x xs ih =>
    cases d with
    | zero =>
      rw [bufIndexOfAux, if_pos (by simpa using hocc)]
      simp
    | succ d' =>
      have hx : ¬leadsList pat (x :: xs) = true := by simpa using hmin 0 (by omega)
      rw [bufIndexOfAux, if_neg hx]
      have hstep := ih (i + 1) (by simpa using hocc)
        (fun e he => by simpa using hmin (e + 1) (by omega))
      have e : i + 1 + d' = i + (d' + 1) := by omega
      rw [e] at hstep
      exact hstep

theorem bufIndexOfAux_none {l pat : List Nat} {i : Nat}
    (h : bufIndexOfAux l pat i = none) (d : Nat) :
    ¬leadsList pat (l.drop d) = true := by
  induction l generalizing i d with
  | nil =>
    rw [bufIndexOfAux] at h
    split at h
    · exact absurd h (by simp)
    · next hp =>
      simp only [List.drop_nil]
      rw [leadsList_nil_iff]
      intro hpat
      exact hp (by simp [hpat, List.isEmpty])
  | cons x xs ih =>
    rw [bufIndexOfAux] at h
    split at h
    · exact absurd h (by simp)
    · next hp =>
      cases d with
      | zero => simpa using hp
      | succ d' => simpa using ih h d'

theorem drop_drop_add (buf : List Nat) (a b : Nat) :
    (buf.drop a).drop b = buf.drop (a + b) := by
  rw [List.drop_drop]

theorem bufIndexOf_some {buf pat : List Nat} {start k : Nat}
    (h : bufIndexOf buf pat start = some k) :
    start ≤ k ∧ occursAt pat buf k ∧ ∀ j, start ≤ j → j < k → ¬occursAt pat buf j := by
  obtain ⟨h1, h2, h3⟩ := bufIndexOfAux_some h
  refine ⟨h1, ?_, ?_⟩
  · rw [occursAt]
    rw [drop_drop_add] at h2
    have : start + (k - start) = k := by omega
    rwa [this] at h2
  · intro j hj1 hj2 hocc
    have := h3 (j - start) (by omega)
    rw [drop_drop_add] at this
    have e : start + (j - start) = j := by omega
    rw [e] at this
    exact this hocc

theorem bufIndexOf_eq_some {buf pat : List Nat} {start k : Nat}
    (hk : start ≤ k) (hocc : occursAt pat buf k)
    (hmin : ∀ j, start ≤ j → j < k → ¬occursAt pat buf j) :
    bufIndexOf buf pat start = some k := by
  rw [bufIndexOf]
  have := bufIndexOfAux_eq_some (l := buf.drop start) (d := k - start) start
    (by rw [drop_drop_add]; have e : start + (k - start) = k := by omega
        rw [e]; exact hocc)
    (fun d' hd' => by
      rw [drop_drop_add]
      exact hmin (start + d') (by omega) (by omega))
  have e : start + (k - start) = k := by omega
  rw [e] at this
  exact this

theorem bufIndexOf_none {buf pat : List Nat} {start : Nat}
    (h : bufIndexOf buf pat start = none) {j : Nat} (hj : start ≤ j) :
    ¬occursAt pat buf j := by
  rw [bufIndexOf] at h
  rcases hk : bufIndexOfAux (buf.drop start) pat start with _ | k
  · have := bufIndexOfAux_none hk (j - start)
    rw [drop_drop_add] at this
    have e : start + (j - start) = j := by omega
    rwa [e] at this
  · rw [hk] at h
    exact absurd h (by simp)

/-! ## Overwrite, read and decode lemmas -/

theorem bufWrite_take {buf repl : List Nat} {idx : Nat} (h : idx ≤ buf.length) :
    (bufWrite buf idx repl).take idx = buf.take idx := by
  rw [bufWrite, List.append_assoc, List.take_append_of_le_length
    (by simpa using h), List.take_take, Nat.min_self]

theorem bufWrite_drop {buf repl : List Nat} {idx : Nat}
    (h : idx + repl.length ≤ buf.length) :
    (bufWrite buf idx repl).drop idx = repl ++ buf.drop (idx + repl.length) := by
  rw [bufWrite,
    show repl.take (buf.length - idx) = repl from List.take_of_length_le (by omega)]
  have hl : (buf.take idx).length = idx := by
    simp
    omega
  rw [List.append_assoc, List.drop_left' hl]

theorem getD_eq_getElem? (l : List Nat) (i : Nat) :
    l.getD i 0 = (l[i]?).getD 0 := by
  simp [List.getD]

theorem readSyncInto_getD {file : List Nat} {pos len i : Nat} (h : i < len) :
    (readSyncInto file pos len).getD i 0 = file.getD (pos + i) 0 := by
  rw [getD_eq_getElem?, getD_eq_getElem?]
  simp [readSyncInto, List.getElem?_map, List.getElem?_range, h]

theorem readSyncInto_eq_take_pad (file : List Nat) (pos len : Nat) :
    readSyncInto file pos len = (file.drop pos ++ List.replicate len 0).take len := by
  apply List.ext_getElem?
  intro i
  by_cases hi : i < len
  · have hget : (readSyncInto file pos len)[i]? = some (file.getD (pos + i) 0) := by
      simp [readSyncInto, List.getElem?_map, List.getElem?_range, hi]
    have htk : ((file.drop pos ++ List.replicate len 0).take len)[i]? =
        (file.drop pos ++ List.replicate len 0)[i]? := by
      simp [List.getElem?_take, hi]
    rw [hget, htk, List.getElem?_append]
    split
    · next hlt =>
      rw [List.getElem?_drop, getD_eq_getElem?]
      have hb : pos + i < file.length := by
        simp only [List.length_drop] at hlt
        omega
      simp [List.getElem?_eq_getElem hb]
    · next hge =>
      simp only [List.length_drop, not_lt] at hge
      have h0 : file.getD (pos + i) 0 = 0 := by
        rw [getD_eq_getElem?]
        have hb : file.length ≤ pos + i := by omega
        simp [List.getElem?_eq_none hb]
      rw [h0, List.getElem?_replicate]
      simp only [List.length_drop]
      rw [if_pos (by omega)]
  · have h1 : (readSyncInto file pos len)[i]? = none := by
      apply List.getElem?_eq_none
      simp [readSyncInto]
      omega
    have h2 : ((file.drop pos ++ List.replicate len 0).take len)[i]? = none := by
      apply List.getElem?_eq_none
      simp only [List.length_take]
      omega
    rw [h1, h2]

theorem readSyncInto_eq_take_drop {file : List Nat} {pos len : Nat}
    (h : pos + len ≤ file.length) : readSyncInto file pos len = (file.drop pos).take len := by
  rw [readSyncInto_eq_take_pad, List.take_append_of_le_length]
  simp only [List.length_drop]
  omega

theorem isHexDigit_lt_128 {c : Nat} (h : isHexDigit c = true) : c < 128 := by
  simp only [isHexDigit, Bool.or_eq_true, Bool.and_eq_true, decide_eq_true_eq] at h
  omega

theorem isHex64_length {l : List Nat} (h : isHex64 l = true) : l.length = 64 := by
  simp only [isHex64, Bool.and_eq_true, beq_iff_eq] at h
  exact h.1

theorem asciiDecode_of_hex {l : List Nat} (h : isHex64 l = true) :
    asciiDecode l = l := by
  simp only [isHex64, Bool.and_eq_true, List.all_eq_true] at h
  rw [asciiDecode]
  conv_rhs => rw [← List.map_id l]
  apply List.map_congr_left
  intro c hc
  have := isHexDigit_lt_128 (h.2 c hc)
  simp only [id]
  omega

/-! ## Backup-manager state lemmas -/

theorem createBackup_asar (s : SysState) : ((createBackup s).2).asar = s.asar := by
  rw [createBackup]
  split <;> rfl

theorem createBackup_exe (s : SysState) : ((createBackup s).2).exe = s.exe := by
  rw [createBackup]
  split <;> rfl

theorem createBackup_marker (s : SysState) : ((createBackup s).2).marker = s.marker := by
  rw [createBackup]
  split <;> rfl

theorem restoreBackup_of_baks {s : SysState} {a b : List Nat}
    (ha : s.asarBak = some a) (hb : s.exeBak = some b) :
    (restoreBackup s).2 =
      { asar := a, exe := b, asarBak := none, exeBak := none, marker := none } := by
  rw [restoreBackup, ha, hb]

/-! ## Integrity-codec lemmas -/

theorem readEmbeddedHash_found_inv {buf h : List Nat} {off : Nat}
    (hr : readEmbeddedHash buf = .found h off) :
    ∃ pidx, bufIndexOf buf HASH_PATTERN 0 = some pidx ∧
      off = pidx + HASH_PATTERN.length ∧
      h = asciiDecode ((buf.drop off).take 64) ∧ isHex64 h = true := by
  rcases hp : bufIndexOf buf HASH_PATTERN 0 with _ | pidx
  · rw [readEmbeddedHash, hp] at hr
    exact absurd hr (by simp)
  · rw [readEmbeddedHash, hp] at hr
    dsimp only at hr
    split at hr
    · next hx =>
      simp only [ReadHashResult.found.injEq] at hr
      refine ⟨pidx, rfl, hr.2.symm, ?_, ?_⟩
      · rw [← hr.2]
        exact hr.1.symm
      · rw [← hr.1]
        exact hx
    · exact absurd hr (by simp)

theorem patchExe_idx_eq_marker {buf oldH : List Nat} {pidx idx : Nat}
    (hpat : bufIndexOf buf HASH_PATTERN 0 = some pidx)
    (hhex : isHex64 oldH = true)
    (hocc : occursAt oldH buf (pidx + HASH_PATTERN.length))
    (hfirst : bufIndexOf buf oldH 0 = some idx)
    (hsecond : bufIndexOf buf oldH (idx + 64) = none) :
    idx = pidx + HASH_PATTERN.length := by
  have hplen : HASH_PATTERN.length = 24 := by decide
  obtain ⟨-, hoccPat, -⟩ := bufIndexOf_some hpat
  obtain ⟨-, hoccIdx, hminIdx⟩ := bufIndexOf_some hfirst
  have hlen : oldH.length = 64 := isHex64_length hhex
  have hle : idx ≤ pidx + HASH_PATTERN.length := by
    by_contra hgt
    exact hminIdx (pidx + HASH_PATTERN.length) (by omega) (by omega) hocc
  rcases Nat.lt_or_ge idx (pidx + HASH_PATTERN.length) with hlt | hge
  · exfalso
    by_cases hcase : pidx + 23 < idx + 64
    · have hjlt : pidx + 23 - idx < oldH.length := by omega
      have hbyte := occursAt_getElem hoccIdx hjlt
      have hidx : idx + (pidx + 23 - idx) = pidx + 23 := by omega
      rw [hidx] at hbyte
      have hpbyte := occursAt_getElem hoccPat (j := 23) (by decide)
      have hpv : HASH_PATTERN[23]? = some 34 := by decide
      rw [hpv] at hpbyte
      rw [hpbyte] at hbyte
      have hmem : 34 ∈ oldH := by
        apply List.get?_mem
        rw [List.get?_eq_getElem?]
        exact hbyte.symm
      simp only [isHex64, Bool.and_eq_true, List.all_eq_true] at hhex
      have := hhex.2 34 hmem
      exact absurd this (by decide)
    · exact bufIndexOf_none hsecond (by omega) hocc
  · omega

theorem readEmbeddedHash_bufWrite {buf newH : List Nat} {pidx : Nat}
    (hpat : bufIndexOf buf HASH_PATTERN 0 = some pidx)
    (hhex : isHex64 newH = true)
    (hlen : pidx + HASH_PATTERN.length + 64 ≤ buf.length) :
    readEmbeddedHash (bufWrite buf (pidx + HASH_PATTERN.length) newH) =
      .found newH (pidx + HASH_PATTERN.length) := by
  have hplen : HASH_PATTERN.length = 24 := by decide
  have hnlen : newH.length = 64 := isHex64_length hhex
  obtain ⟨-, hoccPat, hminPat⟩ := bufIndexOf_some hpat
  have htake : (bufWrite buf (pidx + HASH_PATTERN.length) newH).take
      (pidx + HASH_PATTERN.length) = buf.take (pidx + HASH_PATTERN.length) :=
    bufWrite_take (by omega)
  have hocc' : occursAt HASH_PATTERN (bufWrite buf (pidx + HASH_PATTERN.length) newH) pidx :=
    occursAt_of_take_eq htake.symm (by omega) hoccPat
  have hfirst' : bufIndexOf (bufWrite buf (pidx + HASH_PATTERN.length) newH)
      HASH_PATTERN 0 = some pidx := by
    refine bufIndexOf_eq_some (by omega) hocc' ?_
    intro j _ hj hoccj
    exact hminPat j (by omega) hj (occursAt_of_take_eq htake (by omega) hoccj)
  have hdrop : (bufWrite buf (pidx + HASH_PATTERN.length) newH).drop
      (pidx + HASH_PATTERN.length) =
      newH ++ buf.drop (pidx + HASH_PATTERN.length + newH.length) :=
    bufWrite_drop (by omega)
  rw [readEmbeddedHash, hfirst']
  dsimp only
  have hh : ((bufWrite buf (pidx + HASH_PATTERN.length) newH).drop
      (pidx + HASH_PATTERN.length)).take 64 = newH := by
    rw [hdrop, List.take_left' hnlen]
  rw [hh, asciiDecode_of_hex hhex, if_pos hhex]

theorem patchExeHash_noChange_inv {buf oldH newH : List Nat}
    (h : patchExeHash buf oldH newH = .noChange) : oldH = newH := by
  rw [patchExeHash] at h
  split at h
  · assumption
  · exfalso
    split at h
    · exact absurd h (by simp)
    · rcases hfi : bufIndexOf buf oldH 0 with _ | idx <;> rw [hfi] at h <;>
        dsimp only at h
      · exact absurd h (by simp)
      · rcases hse : bufIndexOf buf oldH (idx + 64) with _ | k <;> rw [hse] at h <;>
          exact absurd h (by simp)

theorem patchExeHash_patched_inv {buf oldH newH newBuf : List Nat}
    (h : patchExeHash buf oldH newH = .patched newBuf) :
    oldH ≠ newH ∧ isHex64 oldH = true ∧ isHex64 newH = true ∧
      ∃ idx, bufIndexOf buf oldH 0 = some idx ∧
        bufIndexOf buf oldH (idx + 64) = none ∧
        newBuf = bufWrite buf idx newH := by
  rw [patchExeHash] at h
  split at h
  · exact absurd h (by simp)
  · next hne =>
    split at h
    · exact absurd h (by simp)
    · next hfmt =>
      have hfmt' : isHex64 oldH = true ∧ isHex64 newH = true := by
        rcases ho : isHex64 oldH <;> rcases hn : isHex64 newH <;>
          (simp [ho, hn] at hfmt; try simp)
      rcases hfi : bufIndexOf buf oldH 0 with _ | idx <;>
        (rw [hfi] at h; dsimp only at h)
      · exact absurd h (by simp)
      · rcases hse : bufIndexOf buf oldH (idx + 64) with _ | k <;> rw [hse] at h
        · simp only [PatchExeResult.patched.injEq] at h
          exact ⟨hne, hfmt'.1, hfmt'.2, idx, rfl, hse, h.symm⟩
        · exact absurd h (by simp)

theorem embeddedHashOf_found {buf h : List Nat} {off : Nat}
    (hr : readEmbeddedHash buf = .found h off) : embeddedHashOf buf = some h := by
  rw [embeddedHashOf, hr]

/-- **C2** (amended).  After a successful `patch` run, provided the 64 bytes
following the integrity marker in the pre-patch executable are the embedded
hash bytes themselves (7-bit clean, so Node's high-bit-clearing `ascii`
decoding read them verbatim), the executable's embedded hash re-read from
the final state equals the recomputed header hash of the final archive.
The "differs from the pre-patch pair" half of the original claim is not
enforced by the code and is dropped (see the counterexample). -/
theorem C2_patch_ok_hash_coherent {env : Env} {s : SysState} {old new : List Nat}
    {s' : SysState} {off : Nat}
    (h : patch env s = (.ok old new, s'))
    (hr : readEmbeddedHash s.exe = .found old off)
    (hclean : occursAt old s.exe off) :
    embeddedHashOf s'.exe = some new ∧ computeAsarHeaderHash s'.asar = new := by
  rw [patch] at h
  rcases hpf : preflight env true s with _ | e <;> rw [hpf] at h <;> dsimp only at h
  case some => exact absurd h (by simp)
  rw [hr] at h
  dsimp only at h
  split at h
  case isFalse => exact absurd h (by simp)
  next hintegrity =>
  rcases hext : env.extractAll ((createBackup s).2).asar with _ | tree <;>
    rw [hext] at h <;> dsimp only at h
  case none => exact absurd h (by simp)
  rcases hmv : tree.mainView with _ | content <;> rw [hmv] at h <;> dsimp only at h
  case none => exact absurd h (by simp)
  split at h
  case isTrue => exact absurd h (by simp)
  next hcode =>
  rcases hcp : env.createPackage
      { tree with mainView := some (injectPayload env.payload content) } with _ | newAsar <;>
    rw [hcp] at h <;> dsimp only at h
  case none => exact absurd h (by simp)
  split at h
  case isTrue => exact absurd h (by simp)
  next hsize =>
  rcases hpe : patchExeHash ((createBackup s).2).exe old
      (computeAsarHeaderHash newAsar) with _ | _ | _ | _ | newExe <;>
    rw [hpe] at h <;> rw [createBackup_exe] at hpe <;> dsimp only at h
  case invalidFormat => exact absurd h (by simp)
  case notFound => exact absurd h (by simp)
  case ambiguous => exact absurd h (by simp)
  case noChange =>
    have heq : old = computeAsarHeaderHash newAsar := patchExeHash_noChange_inv hpe
    simp only [Prod.mk.injEq, PatchOutcome.ok.injEq] at h
    obtain ⟨⟨-, hnew⟩, hs'⟩ := h
    constructor
    · have hexe : s'.exe = s.exe := by
        rw [← hs']
        exact createBackup_exe s
      rw [hexe, embeddedHashOf_found hr, ← hnew, ← heq]
    · have hasar : s'.asar = newAsar := by rw [← hs']
      rw [hasar, ← hnew]
  case patched =>
    obtain ⟨-, hhexOld, hhexNew, idx, hfi, hse, hwrite⟩ := patchExeHash_patched_inv hpe
    obtain ⟨pidx, hpat, hoffeq, -, -⟩ := readEmbeddedHash_found_inv hr
    have hidx : idx = pidx + HASH_PATTERN.length := by
      apply patchExe_idx_eq_marker hpat hhexOld _ hfi hse
      rw [← hoffeq]
      exact hclean
    have hoLen : old.length = 64 := isHex64_length hhexOld
    have hbound : pidx + HASH_PATTERN.length + 64 ≤ s.exe.length := by
      have := occursAt_le_length (by omega) hclean
      omega
    have hread : readEmbeddedHash newExe =
        .found (computeAsarHeaderHash newAsar) (pidx + HASH_PATTERN.length) := by
      rw [hwrite, hidx]
      exact readEmbeddedHash_bufWrite hpat hhexNew hbound
    simp only [Prod.mk.injEq, PatchOutcome.ok.injEq] at h
    obtain ⟨⟨-, hnew⟩, hs'⟩ := h
    constructor
    · have hexe : s'.exe = newExe := by rw [← hs']
      rw [hexe, embeddedHashOf_found hread, hnew]
    · have hasar : s'.asar = newAsar := by rw [← hs']
      rw [hasar, ← hnew]

theorem createBackup_of_has {s : SysState} (h : hasBackups s = true) :
    (createBackup s).2 = s := by
  have h' : (s.asarBak.isSome && s.exeBak.isSome) = true := h
  rw [createBackup, if_pos h']

theorem createBackup_of_not_has {s : SysState} (h : hasBackups s = false) :
    (createBackup s).2 = { s with asarBak := some s.asar, exeBak := some s.exe } := by
  have h' : ¬((s.asarBak.isSome && s.exeBak.isSome) = true) := by
    intro hc
    rw [show (s.asarBak.isSome && s.exeBak.isSome) = hasBackups s from rfl, h] at hc
    cases hc
  rw [createBackup, if_neg h']

theorem restore_state_spec {s t : SysState}
    (ha : t.asarBak = ((createBackup s).2).asarBak)
    (hb : t.exeBak = ((createBackup s).2).exeBak) :
    (restoreBackup t).2.asarBak = none ∧ (restoreBackup t).2.exeBak = none ∧
    (restoreBackup t).2.marker = none ∧
    (hasBackups s = false →
      (restoreBackup t).2.asar = s.asar ∧ (restoreBackup t).2.exe = s.exe) ∧
    (∀ a b, s.asarBak = some a → s.exeBak = some b →
      (restoreBackup t).2.asar = a ∧ (restoreBackup t).2.exe = b) := by
  by_cases hbk : hasBackups s = true
  · rcases hsa : s.asarBak with _ | a
    · rw [hasBackups, hsa] at hbk
      cases hbk
    rcases hsb : s.exeBak with _ | b
    · rw [hasBackups, hsb] at hbk
      simp at hbk
    have hcb : (createBackup s).2 = s := createBackup_of_has hbk
    rw [hcb] at ha hb
    rw [restoreBackup_of_baks (ha.trans hsa) (hb.trans hsb)]
    refine ⟨rfl, rfl, rfl, ?_, ?_⟩
    · intro hf
      rw [hbk] at hf
      cases hf
    · intro a' b' ha' hb'
      injection ha' with ha''
      injection hb' with hb''
      exact ⟨ha'', hb''⟩
  · have hbk' : hasBackups s = false := by
      rcases hbkv : hasBackups s
      · rfl
      · exact absurd hbkv hbk
    have hcb := createBackup_of_not_has hbk'
    rw [hcb] at ha hb
    rw [restoreBackup_of_baks ha hb]
    refine ⟨rfl, rfl, rfl, fun _ => ⟨rfl, rfl⟩, ?_⟩
    intro a b hsa hsb
    exfalso
    rw [hasBackups, hsa, hsb] at hbk'
    cases hbk'

theorem preflight_some_mem {env : Env} {u : Bool} {s : SysState} {e : PatchErr}
    (h : preflight env u s = some e) :
    e = .running ∨ e = .lockedAsar ∨ e = .lockedExe ∨ e = .alreadyPatched := by
  rw [preflight] at h
  split at h
  · injection h with h'
    exact Or.inl h'.symm
  · split at h
    · injection h with h'
      exact Or.inr (Or.inl h'.symm)
    · split at h
      · injection h with h'
        exact Or.inr (Or.inr (Or.inl h'.symm))
      · split at h
        · injection h with h'
          exact Or.inr (Or.inr (Or.inr h'.symm))
        · cases h

/-- **C1**.  Whenever `patch` fails after the backup step — repack failure,
the post-repack size sanity check, or any failure of the executable hash
rewrite — the final state is the one produced by `restoreBackup`: both
backups and the marker are gone, the live archive and executable hold the
backup bytes (which are this invocation's pre-patch bytes whenever the
backup was created fresh rather than skipped). -/
theorem C1_rollback_after_failure {env : Env} {s s' : SysState} {e : PatchErr}
    (h : patch env s = (.fail e, s'))
    (he : e = .repackFailed ∨ e = .verifyFailed ∨ e = .exeHashInvalidFormat ∨
      e = .exeHashNotFound ∨ e = .exeHashAmbiguous) :
    s'.asarBak = none ∧ s'.exeBak = none ∧ s'.marker = none ∧
    (hasBackups s = false → s'.asar = s.asar ∧ s'.exe = s.exe) ∧
    (∀ a b, s.asarBak = some a → s.exeBak = some b → s'.asar = a ∧ s'.exe = b) := by
  rw [patch] at h
  rcases hpf : preflight env true s with _ | e0 <;> rw [hpf] at h <;> dsimp only at h
  case some =>
    simp only [Prod.mk.injEq, PatchOutcome.fail.injEq] at h
    obtain ⟨rfl, -⟩ := h
    rcases preflight_some_mem hpf with rfl | rfl | rfl | rfl <;>
      rcases he with h1 | h1 | h1 | h1 | h1 <;> cases h1
  rcases hre : readEmbeddedHash s.exe with ⟨oldHash, off0⟩ | _ | ihash <;>
    rw [hre] at h <;> dsimp only at h
  case notFound =>
    simp only [Prod.mk.injEq, PatchOutcome.fail.injEq] at h
    obtain ⟨rfl, -⟩ := h
    rcases he with h1 | h1 | h1 | h1 | h1 <;> cases h1
  case invalid =>
    simp only [Prod.mk.injEq, PatchOutcome.fail.injEq] at h
    obtain ⟨rfl, -⟩ := h
    rcases he with h1 | h1 | h1 | h1 | h1 <;> cases h1
  case found =>
  split at h
  case isFalse =>
    simp only [Prod.mk.injEq, PatchOutcome.fail.injEq] at h
    obtain ⟨rfl, -⟩ := h
    rcases he with h1 | h1 | h1 | h1 | h1 <;> cases h1
  rcases hext : env.extractAll ((createBackup s).2).asar with _ | tree <;>
    rw [hext] at h <;> dsimp only at h
  case none =>
    simp only [Prod.mk.injEq, PatchOutcome.fail.injEq] at h
    obtain ⟨rfl, -⟩ := h
    rcases he with h1 | h1 | h1 | h1 | h1 <;> cases h1
  rcases hmv : tree.mainView with _ | content <;> rw [hmv] at h <;> dsimp only at h
  case none =>
    simp only [Prod.mk.injEq, PatchOutcome.fail.injEq] at h
    obtain ⟨rfl, -⟩ := h
    rcases he with h1 | h1 | h1 | h1 | h1 <;> cases h1
  split at h
  case isTrue =>
    simp only [Prod.mk.injEq, PatchOutcome.fail.injEq] at h
    obtain ⟨rfl, -⟩ := h
    rcases he with h1 | h1 | h1 | h1 | h1 <;> cases h1
  rcases hcp : env.createPackage
      { tree with mainView := some (injectPayload env.payload content) } with _ | newAsar <;>
    rw [hcp] at h <;> dsimp only at h
  case none =>
    simp only [Prod.mk.injEq, PatchOutcome.fail.injEq] at h
    obtain ⟨-, hs'⟩ := h
    rw [← hs']
    exact restore_state_spec rfl rfl
  split at h
  case isTrue =>
    simp only [Prod.mk.injEq, PatchOutcome.fail.injEq] at h
    obtain ⟨-, hs'⟩ := h
    rw [← hs']
    exact restore_state_spec rfl rfl
  rcases hpe : patchExeHash ((createBackup s).2).exe oldHash
      (computeAsarHeaderHash newAsar) with _ | _ | _ | _ | newExe <;>
    rw [hpe] at h <;> (try dsimp only at h)
  case noChange => exact absurd h (by simp)
  case patched => exact absurd h (by simp)
  all_goals
    simp only [Prod.mk.injEq, PatchOutcome.fail.injEq] at h
    obtain ⟨-, hs'⟩ := h
    rw [← hs']
    exact restore_state_spec rfl rfl

/-- Witness for C1: with a transcoder whose repack fails, `patch` on the
healthy unpatched installation fails and leaves the live files at their
pre-patch bytes, with no backups and no marker. -/
theorem C1_witness :
    (patch envRepackFail st0).2.asarBak = none ∧
    (patch envRepackFail st0).2.exeBak = none ∧
    (patch envRepackFail st0).2.marker = none ∧
    ((patch envRepackFail st0).2.asar = st0.asar ∧
      (patch envRepackFail st0).2.exe = st0.exe) :=
  have hres := C1_rollback_after_failure
    (show patch envRepackFail st0 =
        (.fail .repackFailed, (patch envRepackFail st0).2) by decide)
    (Or.inl rfl)
  ⟨hres.1, hres.2.1, hres.2.2.1, hres.2.2.2.1 (by decide)⟩

/-- Counterexample for C2 as stated.  First run: the transcoder repacks to
an archive with the same header hash, `patch` succeeds and the post-patch
hash pair equals the pre-patch pair — the "differs" half fails.  Second
run: the marker in the executable is followed by high-bit-dirtied bytes
that ASCII-decode to the embedded hash; `patch` succeeds after rewriting
the clean occurrence found elsewhere in the binary, and the hash re-read
from the patched executable is the old one, not the new header hash — the
coherence half fails as well. -/
theorem C2_counterexample :
    ((patch envSame st0).1 = .ok SHA256_EMPTY SHA256_EMPTY ∧
      computeAsarHeaderHash (patch envSame st0).2.asar =
        computeAsarHeaderHash st0.asar) ∧
    ((patch envNew stD).1 = .ok SHA256_EMPTY H12 ∧
      embeddedHashOf (patch envNew stD).2.exe = some SHA256_EMPTY ∧
      SHA256_EMPTY ≠ H12) := by
  decide

/-- Witness for C2: a successful concrete run on a clean executable, where
the theorem yields the coherent hash pair. -/
theorem C2_witness :
    embeddedHashOf (patch envSame st0).2.exe = some SHA256_EMPTY ∧
    computeAsarHeaderHash (patch envSame st0).2.asar = SHA256_EMPTY :=
  C2_patch_ok_hash_coherent
    (show patch envSame st0 = (.ok SHA256_EMPTY SHA256_EMPTY, (patch envSame st0).2)
      by decide)
    (show readEmbeddedHash st0.exe = .found SHA256_EMPTY 24 by decide)
    (by decide)

/-- Executable consisting of 33 copies of the byte pair "ab": the periodic
64-character hash "abab…ab" occurs at offsets 0 and 2. -/
def bufAB : List Nat :=
  (List.replicate 33 [97, 98]).flatten

/-- The 64-character lowercase-hex hash "abab…ab". -/
def OLD_AB : List Nat :=
  (List.replicate 32 [97, 98]).flatten

/-- The 64-character lowercase-hex hash "cdcd…cd". -/
def NEW_CD : List Nat :=
  (List.replicate 32 [99, 100]).flatten

/-- **C3** (code-bug evaluation).  The old hash occurs at offsets 0 and 2 of
the executable — more than once — yet `patchExeHash` rewrites the file
instead of returning the ambiguous-match error: its second search starts at
`idx + 64` and misses overlapping occurrences, contradicting the "verify it
only appears once" safety check the source claims to perform. -/
theorem C3_overlap_defeats_uniqueness_guard :
    occursAt OLD_AB bufAB 0 ∧ occursAt OLD_AB bufAB 2 ∧
    OLD_AB ≠ NEW_CD ∧ isHex64 OLD_AB = true ∧ isHex64 NEW_CD = true ∧
    patchExeHash bufAB OLD_AB NEW_CD = .patched (bufWrite bufAB 0 NEW_CD) := by
  decide

theorem isPatchedOnDisk_some {α : Type} (p : List Nat → Option α) (c : List Nat) :
    (isPatchedOnDisk p (some c)).1 = true := by
  rw [isPatchedOnDisk]
  cases p c <;> rfl

/-- **C4**.  When the marker file is present, a `patch` invocation (in an
environment that lets preflight reach the marker check: host not running,
both artifacts writable) fails with the already-patched error and returns
the file-system state unchanged — no file is created, modified or
deleted. -/
theorem C4_already_patched_guard {env : Env} {s : SysState}
    (hrun : env.running = false) (hw1 : env.asarWritable = true)
    (hw2 : env.exeWritable = true) (hm : s.marker.isSome = true) :
    patch env s = (.fail .alreadyPatched, s) := by
  have hp : preflight env true s = some .alreadyPatched := by
    rw [preflight, hrun, hw1, hw2]
    rcases hm' : s.marker with _ | c
    · rw [hm'] at hm
      cases hm
    · simp [isPatchedOnDisk_some]
  rw [patch, hp]

/-- Witness for C4: the quiet environment and the healthy installation with
a marker present. -/
theorem C4_witness :
    patch envSame { st0 with marker := some [1] } =
      (.fail .alreadyPatched, { st0 with marker := some [1] }) :=
  C4_already_patched_guard rfl rfl rfl rfl

/-- Counterexample for C5 as stated.  The empty file is shorter than the
16-byte prefix, yet `computeAsarHeaderHash` raises no `IoError`: it returns
the SHA-256 of the (empty, zero-padded) declared header region — a
64-character hash computed from incomplete data. -/
theorem C5_counterexample :
    computeAsarHeaderHash [] = sha256hex [] ∧
    (computeAsarHeaderHash []).length = 64 ∧ ([] : List Nat).length < 16 := by
  decide

/-- **C5** (amended).  `computeAsarHeaderHash` performs no length or format
validation and never fails: the declared header length is read from bytes
12–15 of the (zero-padded) prefix, and the function returns the SHA-256 of
the declared-length region starting at offset 16, zero-padded past the end
of the file exactly as `fs.readSync` leaves the allocated buffer. -/
theorem C5_headerHash_total_zero_pad (file : List Nat) :
    readUInt32LE (readSyncInto file 0 16) 12 =
      file.getD 12 0 + 256 * file.getD 13 0 + 65536 * file.getD 14 0 +
        16777216 * file.getD 15 0 ∧
    computeAsarHeaderHash file =
      sha256hex ((file.drop 16 ++
          List.replicate (readUInt32LE (readSyncInto file 0 16) 12) 0).take
        (readUInt32LE (readSyncInto file 0 16) 12)) := by
  constructor
  · rw [readUInt32LE, readSyncInto_getD (by omega), readSyncInto_getD (by omega),
      readSyncInto_getD (by omega), readSyncInto_getD (by omega)]
  · rw [computeAsarHeaderHash]
    rw [readSyncInto_eq_take_pad]

/-- **C6**.  An absent marker file reports not patched; a present marker
whose body fails to decode still reports patched with no info; a present
marker always reports patched.  Corruption of the marker body is never
mistaken for "unpatched". -/
theorem C6_marker_asymmetry {α : Type} (decode : List Nat → Option α)
    (m : Option (List Nat)) :
    (m = none → isPatchedOnDisk decode m = (false, none)) ∧
    (∀ c, m = some c → decode c = none → isPatchedOnDisk decode m = (true, none)) ∧
    (∀ c, m = some c → (isPatchedOnDisk decode m).1 = true) := by
  refine ⟨?_, ?_, ?_⟩
  · rintro rfl
    rfl
  · rintro c rfl hd
    rw [isPatchedOnDisk, hd]
  · rintro c rfl
    exact isPatchedOnDisk_some decode c

/-- Witness for C6 at a concrete undecodable marker body and a concrete
absent marker. -/
theorem C6_witness :
    isPatchedOnDisk (fun _ => (none : Option Unit)) (some [1]) = (true, none) ∧
    isPatchedOnDisk (fun _ => (none : Option Unit)) none = (false, none) :=
  ⟨(C6_marker_asymmetry (fun _ => (none : Option Unit)) (some [1])).2.1 [1] rfl rfl,
   (C6_marker_asymmetry (fun _ => (none : Option Unit)) none).1 rfl⟩

/-- **C7**.  For every 1000-byte archive whose little-endian header-length
field at offset 12 holds 12, `computeAsarHeaderHash` is the SHA-256 hex
digest of exactly the 12 bytes at offset 16, whatever the other bytes
hold. -/
theorem C7_headerHash_of_declared_12 (file : List Nat)
    (hlen : file.length = 1000)
    (h12 : file.getD 12 0 = 12) (h13 : file.getD 13 0 = 0)
    (h14 : file.getD 14 0 = 0) (h15 : file.getD 15 0 = 0) :
    computeAsarHeaderHash file = sha256hex ((file.drop 16).take 12) := by
  rw [computeAsarHeaderHash]
  have hL : readUInt32LE (readSyncInto file 0 16) 12 = 12 := by
    rw [readUInt32LE, readSyncInto_getD (by omega), readSyncInto_getD (by omega),
      readSyncInto_getD (by omega), readSyncInto_getD (by omega)]
    simp only [Nat.zero_add]
    rw [h12, h13, h14, h15]
  rw [hL, readSyncInto_eq_take_drop (by omega)]

/-- Witness for C7: the mock archive `asar1` (header length 12, header blob
of twelve 7-bytes). -/
theorem C7_witness :
    computeAsarHeaderHash asar1 = sha256hex ((asar1.drop 16).take 12) :=
  C7_headerHash_of_declared_12 asar1 (by decide) (by decide) (by decide)
    (by decide) (by decide)

theorem occursAt_append_self (A pat tail : List Nat) :
    occursAt pat (A ++ pat ++ tail) A.length := by
  rw [occursAt_iff_take, List.append_assoc, List.drop_left, List.take_left]

theorem drop_append_two (A pat tail : List Nat) :
    (A ++ pat ++ tail).drop (A.length + pat.length) = tail := by
  rw [← List.length_append, List.drop_left]

theorem readEmbeddedHash_structured {pre h rest : List Nat}
    (hlen : h.length = 64)
    (hmin : ∀ j < pre.length, ¬occursAt HASH_PATTERN (pre ++ HASH_PATTERN ++ h ++ rest) j) :
    readEmbeddedHash (pre ++ HASH_PATTERN ++ h ++ rest) =
      if isHex64 (asciiDecode h) then
        .found (asciiDecode h) (pre.length + HASH_PATTERN.length)
      else .invalid (asciiDecode h) := by
  have hassoc : pre ++ HASH_PATTERN ++ (h ++ rest) = pre ++ HASH_PATTERN ++ h ++ rest := by
    simp [List.append_assoc]
  have hocc := occursAt_append_self pre HASH_PATTERN (h ++ rest)
  rw [hassoc] at hocc
  have hfirst : bufIndexOf (pre ++ HASH_PATTERN ++ h ++ rest) HASH_PATTERN 0 =
      some pre.length :=
    bufIndexOf_eq_some (Nat.zero_le _) hocc (fun j _ hj => hmin j hj)
  rw [readEmbeddedHash, hfirst]
  dsimp only
  have hdrop : (pre ++ HASH_PATTERN ++ h ++ rest).drop
      (pre.length + HASH_PATTERN.length) = h ++ rest := by
    rw [← hassoc]
    exact drop_append_two pre HASH_PATTERN (h ++ rest)
  rw [hdrop, List.take_left' hlen]

/-- **C8** (amended for Node's `ascii` decoding, which clears the high bit
of each byte).  When the 64 bytes after the marker's first occurrence are
lowercase hex, `readEmbeddedHash` returns exactly that substring; when the
high-bit-cleared bytes fail the lowercase-hex test (an uppercase letter
still fails), it returns the format error; when the marker is absent, the
not-found error.  A byte that is not lowercase hex but masks to one no
longer causes a failure — see the counterexample. -/
theorem C8_readEmbeddedHash_cases :
    (∀ pre h rest, isHex64 h = true →
      (∀ j < pre.length, ¬occursAt HASH_PATTERN (pre ++ HASH_PATTERN ++ h ++ rest) j) →
      readEmbeddedHash (pre ++ HASH_PATTERN ++ h ++ rest) =
        .found h (pre.length + HASH_PATTERN.length)) ∧
    (∀ pre h rest, h.length = 64 → isHex64 (asciiDecode h) = false →
      (∀ j < pre.length, ¬occursAt HASH_PATTERN (pre ++ HASH_PATTERN ++ h ++ rest) j) →
      readEmbeddedHash (pre ++ HASH_PATTERN ++ h ++ rest) = .invalid (asciiDecode h)) ∧
    (∀ buf, (∀ j, ¬occursAt HASH_PATTERN buf j) → readEmbeddedHash buf = .notFound) := by
  refine ⟨?_, ?_, ?_⟩
  · intro pre h rest hhex hmin
    rw [readEmbeddedHash_structured (isHex64_length hhex) hmin,
      asciiDecode_of_hex hhex, if_pos hhex]
  · intro pre h rest hlen hbad hmin
    rw [readEmbeddedHash_structured hlen hmin, if_neg]
    rw [hbad]
    simp
  · intro buf hno
    rcases hfi : bufIndexOf buf HASH_PATTERN 0 with _ | k
    · rw [readEmbeddedHash, hfi]
    · exact absurd (bufIndexOf_some hfi).2.1 (hno k)

/-- Witness for C8: a clean embedded hash behind two junk bytes. -/
theorem C8_witness :
    readEmbeddedHash ([2, 2] ++ HASH_PATTERN ++ SHA256_EMPTY ++ [5]) =
      .found SHA256_EMPTY (([2, 2] : List Nat).length + HASH_PATTERN.length) :=
  C8_readEmbeddedHash_cases.1 [2, 2] SHA256_EMPTY [5] (by decide) (by decide)

/-- Counterexample for C8 as stated: the byte 181 after the marker is not
lowercase hex, yet the call succeeds — and the returned hash is not the
literal substring of the buffer (181 was decoded to 53). -/
theorem C8_counterexample :
    dirtyHash.getD 63 0 = 181 ∧ isHexDigit 181 = false ∧
    readEmbeddedHash (HASH_PATTERN ++ dirtyHash) = .found SHA256_EMPTY 24 ∧
    dirtyHash ≠ SHA256_EMPTY := by
  decide

/-- **C9**.  When exactly one of the two backup files exists, `createBackup`
does not take the skip path: it copies the current live archive and
executable over both backup paths, overwriting the one pre-existing backup
with current live content. -/
theorem C9_single_backup_overwritten {s : SysState}
    (h : s.asarBak.isSome ≠ s.exeBak.isSome) :
    createBackup s =
      (.created, { s with asarBak := some s.asar, exeBak := some s.exe }) := by
  rw [createBackup, if_neg]
  intro hc
  simp only [Bool.and_eq_true] at hc
  exact h (hc.1.trans hc.2.symm)

/-- Witness for C9: only the archive backup pre-exists (with stale bytes);
it is overwritten with the live archive. -/
theorem C9_witness :
    createBackup
        { asar := [1], exe := [2], asarBak := some [3], exeBak := none, marker := none } =
      (.created,
        { asar := [1], exe := [2], asarBak := some [1], exeBak := some [2],
          marker := none }) :=
  C9_single_backup_overwritten (by decide)

/-- **C10**.  When the marker pattern occurs more than once, `readEmbeddedHash`
performs no multiple-occurrence check: it returns the 64 bytes after the
first occurrence (in contrast to the uniqueness guard of `patchExeHash`). -/
theorem C10_first_marker_occurrence_wins (pre h mid rest : List Nat)
    (hhex : isHex64 h = true)
    (hmin : ∀ j < pre.length,
      ¬occursAt HASH_PATTERN (pre ++ HASH_PATTERN ++ h ++ mid ++ HASH_PATTERN ++ rest) j) :
    occursAt HASH_PATTERN (pre ++ HASH_PATTERN ++ h ++ mid ++ HASH_PATTERN ++ rest)
      (pre.length + HASH_PATTERN.length + 64 + mid.length) ∧
    readEmbeddedHash (pre ++ HASH_PATTERN ++ h ++ mid ++ HASH_PATTERN ++ rest) =
      .found h (pre.length + HASH_PATTERN.length) := by
  have hlen : h.length = 64 := isHex64_length hhex
  constructor
  · have hassoc : pre ++ HASH_PATTERN ++ h ++ mid ++ HASH_PATTERN ++ rest =
        (pre ++ HASH_PATTERN ++ h ++ mid) ++ HASH_PATTERN ++ rest := by
      simp [List.append_assoc]
    have hA : (pre ++ HASH_PATTERN ++ h ++ mid).length =
        pre.length + HASH_PATTERN.length + 64 + mid.length := by
      simp [hlen]
      omega
    rw [hassoc, ← hA]
    exact occursAt_append_self (pre ++ HASH_PATTERN ++ h ++ mid) HASH_PATTERN rest
  · have hassoc2 : pre ++ HASH_PATTERN ++ h ++ mid ++ HASH_PATTERN ++ rest =
        pre ++ HASH_PATTERN ++ h ++ (mid ++ HASH_PATTERN ++ rest) := by
      simp [List.append_assoc]
    rw [hassoc2] at hmin ⊢
    rw [readEmbeddedHash_structured hlen hmin, asciiDecode_of_hex hhex, if_pos hhex]

/-- Witness for C10: the marker occurs twice; the hash after the first
occurrence is returned. -/
theorem C10_witness :
    occursAt HASH_PATTERN
      (([] : List Nat) ++ HASH_PATTERN ++ SHA256_EMPTY ++ [5] ++ HASH_PATTERN ++ [6])
      (([] : List Nat).length + HASH_PATTERN.length + 64 + [5].length) ∧
    readEmbeddedHash
        (([] : List Nat) ++ HASH_PATTERN ++ SHA256_EMPTY ++ [5] ++ HASH_PATTERN ++ [6]) =
      .found SHA256_EMPTY (([] : List Nat).length + HASH_PATTERN.length) :=
  C10_first_marker_occurrence_wins [] SHA256_EMPTY [5] [6] (by decide) (by decide)

end RtlFixer
